import Mathlib

/-!
Verification of the coil background-job runner (dispatch and execution engine).

Shallow embedding of `src/coil/src/runner.rs`, `src/coil/src/registry.rs` and
the store operations of `src/coil/src/db.rs`.  Pure control flow is translated
into executable Lean functions; the interactions of a unit of work with the
database and with handlers are made explicit by passing in the outcome of each
external step and recording the actions the unit performs as a trace.
-/

namespace Coil

/-! ## Error taxonomy (`error.rs`) -/

/-- Any handler-side failure (decode, unknown job, user error, panic payload),
carrying its message string (`error::PerformError`). -/
inductive PerformError
  | msg (s : String)
deriving DecidableEq, Repr

/-- Errors surfaced by the outer loop (`error::FetchError`); the wrapped
`sqlx::Error` of `FailedLoadingJob` is represented by its message string. -/
inductive FetchError
  | Timeout
  | NoMessage
  | FailedLoadingJob (e : String)
deriving DecidableEq, Repr

/-! ## Data model -/

/-- A fetched job as the runner sees it (`db::BackgroundJob`): row id, the
job-type name used for registry lookup, and the raw payload bytes. -/
structure BackgroundJob where
  id : Int
  job_type : String
  data : List Nat
deriving DecidableEq, Repr

/-- A persisted row of `_background_tasks`.  The `locked` flag models whether
some other in-flight transaction currently holds the row lock. -/
structure JobRow where
  id : Int
  job_type : String
  data : List Nat
  is_async : Bool
  retries : Nat
  locked : Bool
deriving DecidableEq, Repr

/-- The row with the least `id`, first occurrence winning ties (the
`ORDER BY id ... LIMIT 1` selection). -/
def minById : List JobRow → Option JobRow
  | [] => none
  | r :: rs =>
    match minById rs with
    | none => some r
    | some m => if r.id ≤ m.id then some r else some m

/-- Modelled from the spec: the body of `db::find_next_unlocked_job` is absent
from the source (`db.rs` holds only a `todo!()` stub), so the operation is
modelled from the spec sentence "the dequeue query is semantically
SELECT ... FROM _background_tasks WHERE is_async = $1 ORDER BY id
FOR UPDATE SKIP LOCKED LIMIT 1": among the rows matching the `is_async` filter
whose lock is not held by another transaction (skip-locked semantics), the one
with the least `id` is chosen and row-locked; `none` when no such row exists.
Returns the selected row and the table with the acquired lock recorded. -/
def find_next_unlocked_job (table : List JobRow) (is_async_filter : Bool) :
    Option JobRow × List JobRow :=
  match minById (table.filter (fun r => r.is_async == is_async_filter && !r.locked)) with
  | none => (none, table)
  | some j =>
    (some j, table.map (fun r => if r.id = j.id then { r with locked := true } else r))

/-! ## Futures and type erasure -/

/-- A deferred completion: a value that becomes available after `steps`
suspension points.  `steps = 0` means immediately ready. -/
structure Fut (α : Type) where
  steps : Nat
  val : α
deriving DecidableEq, Repr

/-- `futures::executor::block_on`: drive a future to completion on the current
thread and return its resolved value. -/
def block_on {α : Type} (f : Fut α) : α := f.val

/-- An immediately-ready future (what an `async` block returning a plain value
produces). -/
def Fut.ready {α : Type} (a : α) : Fut α := ⟨0, a⟩

/-- Opaque model of `sqlx::PgPool`. -/
abbrev Pool := Unit

/-- A type-erased environment reference (`&dyn Any`): the runtime `TypeId` of
the referenced value (modelled as `Nat`) plus the value itself. -/
structure DynAny where
  type_id : Nat
  value : Nat
deriving DecidableEq, Repr

/-- `<dyn Any>::downcast_ref::<E>`: succeeds exactly when the runtime type tag
matches the requested one. -/
def downcast_ref (expected : Nat) (a : DynAny) : Option Nat :=
  if a.type_id = expected then some a.value else none

/-! ## Registry (`registry.rs`) -/

/-- `registry::SyncOrAsync`: the two function shapes a descriptor can hold. -/
inductive SyncOrAsync
  | Sync (f : List Nat → DynAny → Pool → Except PerformError Unit)
  | Async (f : List Nat → DynAny → Pool →
      Except PerformError (Fut (Except PerformError Unit)))

/-- `registry::JobVTable`: one globally registered descriptor, tagged with the
`TypeId` of its environment type and its job-type name. -/
structure JobVTable where
  env_type : Nat
  job_type : String
  perform : SyncOrAsync

/-- `HashMap::insert` on an association-list model of `HashMap`: the new
binding replaces any existing binding of the same key. -/
def hmInsert (m : List (String × JobVTable)) (k : String) (v : JobVTable) :
    List (String × JobVTable) :=
  (k, v) :: m.filter (fun kv => !(kv.1 == k))

/-- `Registry<Env>`: the environment type is represented by its runtime tag;
`jobs` is the association-list model of the `HashMap` from job-type name to
descriptor. -/
structure Registry where
  env_tag : Nat
  jobs : List (String × JobVTable)

/-- `Registry::load`: walk the global `inventory` collection in submission
order, keep the descriptors whose `env_type` equals this environment's tag,
and collect them into a map; as with `HashMap::from_iter`, a later duplicate
key overwrites an earlier one. -/
def Registry.load (envTag : Nat) (inventory : List JobVTable) : Registry :=
  { env_tag := envTag
    jobs := (inventory.filter (fun v => v.env_type == envTag)).foldl
      (fun m v => hmInsert m v.job_type v) [] }

/-- `registry::PerformJob`: a handle on one descriptor. -/
structure PerformJob where
  vtable : JobVTable

/-- `Registry::get`: look up the perform function for a job type. -/
def Registry.get (reg : Registry) (job_type : String) : Option PerformJob :=
  (reg.jobs.lookup job_type).map (fun v => ⟨v⟩)

/-- `PerformJob::perform_sync`: run the job in the blocking lane.  A sync
descriptor is a direct call; an async descriptor makes the outer call and, if
it succeeds, blocks the current thread on the returned future. -/
def PerformJob.perform_sync (p : PerformJob) (data : List Nat) (env : DynAny)
    (pool : Pool) : Except PerformError Unit :=
  match p.vtable.perform with
  | .Sync f => f data env pool
  | .Async f =>
    match f data env pool with
    | .error e => .error e
    | .ok fut => block_on fut

/-- `PerformJob::perform_async`: run the job in the cooperative lane.  A sync
descriptor is called directly and its result is immediately ready; an async
descriptor makes the outer call and then awaits the returned future. -/
def PerformJob.perform_async (p : PerformJob) (data : List Nat) (env : DynAny)
    (pool : Pool) : Fut (Except PerformError Unit) :=
  match p.vtable.perform with
  | .Sync f => Fut.ready (f data env pool)
  | .Async f =>
    match f data env pool with
    | .error e => Fut.ready (.error e)
    | .ok fut => fut

/-- One concrete `Job` implementation `T`: the `TypeId` of `T::Environment`,
the job-type name, the lane marker `T::ASYNC`, the payload decoder
(`rmp_serde::from_read`, failing with a message) and the perform body.
Decoded arguments and environment values are modelled as `Nat`. -/
structure JobDef where
  env_type : Nat
  job_type : String
  is_async : Bool
  decode : List Nat → Except String Nat
  perform : Nat → Nat → Pool → Except PerformError Unit

/-- The message `registry.rs` reports on an environment-type mismatch. -/
def incorrect_env_msg : String :=
  "Incorrect environment type. This should never happen. Please open an issue at https://github.com/paritytech/coil/issues/new"

/-- `registry::perform_sync_job::<T>`: downcast the environment, decode the
payload, then call `T::perform`. -/
def perform_sync_job (T : JobDef) (data : List Nat) (env : DynAny)
    (pool : Pool) : Except PerformError Unit :=
  match downcast_ref T.env_type env with
  | none => .error (.msg incorrect_env_msg)
  | some environment =>
    match T.decode data with
    | .error e => .error (.msg e)
    | .ok d => T.perform d environment pool

/-- `registry::perform_async_job::<T>`: downcast the environment, decode the
payload, then return the future of `T::perform_async`. -/
def perform_async_job (T : JobDef) (data : List Nat) (env : DynAny)
    (pool : Pool) : Except PerformError (Fut (Except PerformError Unit)) :=
  match downcast_ref T.env_type env with
  | none => .error (.msg incorrect_env_msg)
  | some environment =>
    match T.decode data with
    | .error e => .error (.msg e)
    | .ok d => .ok ⟨1, T.perform d environment pool⟩

/-- The closure body of `Runner::run_single_sync_job`: registry lookup, then
`perform_sync`; an unknown `job_type` becomes a `PerformError`. -/
def run_single_sync_perform (reg : Registry) (job : BackgroundJob)
    (env : DynAny) (pool : Pool) : Except PerformError Unit :=
  match reg.get job.job_type with
  | none => .error (.msg ("Unknown job type " ++ job.job_type))
  | some p => p.perform_sync job.data env pool

/-- The closure body of `Runner::run_single_async_job`: registry lookup, then
`perform_async`; an unknown `job_type` resolves immediately to a
`PerformError`. -/
def run_single_async_perform (reg : Registry) (job : BackgroundJob)
    (env : DynAny) (pool : Pool) : Fut (Except PerformError Unit) :=
  match reg.get job.job_type with
  | none => Fut.ready (.error (.msg ("Unknown job type " ++ job.job_type)))
  | some p => p.perform_async job.data env pool

/-! ## The outer loop (`Runner::run_pending_tasks`) -/

/-- `runner::Event`: lifecycle events sent from units of work to the outer
loop (`Dummy` is the test-only variant). -/
inductive Event
  | Working
  | NoJobAvailable
  | ErrorLoadingJob (e : String)
  | Dummy
deriving DecidableEq, Repr

/-- What one `select!` of the outer loop can observe: a message from the event
channel, a closed channel (`None`), or the fetch timeout firing. -/
inductive Msg
  | event (e : Event)
  | closed
  | timeout
deriving DecidableEq, Repr

/-- Loop accounting for one iteration of `run_pending_tasks`: the value of
`pending_messages` at the top of the iteration and the number of units of work
launched by it (`jobs_to_queue`). -/
structure IterRecord where
  pending_at_top : Nat
  launched : Nat
deriving DecidableEq, Repr

deriving instance DecidableEq for Except

/-- How a run of the outer loop ends: a `return`, the end of the observation
script with the loop still live, or an underflowing `usize` subtraction. -/
inductive LoopOutcome
  | ret (r : Except FetchError Nat)
  | scriptEnd (pending queued : Nat)
  | underflow
deriving DecidableEq, Repr

/-- `Runner::run_pending_tasks`, driven by a script of observed channel
outcomes, one per iteration: launch `max_tasks` when `pending_messages` is
zero and `max_tasks - pending_messages` otherwise, add that count to
`pending_messages`, then handle one message.  The `usize` subtractions of the
source are guarded: operands that would underflow yield
`LoopOutcome.underflow`.  Returns the per-iteration accounting and the
outcome. -/
def run_pending_tasks (max_tasks : Nat) :
    List Msg → Nat → Nat → List IterRecord × LoopOutcome
  | [], pending, queued => ([], .scriptEnd pending queued)
  | m :: rest, pending, queued =>
    if max_tasks < pending then ([], .underflow)
    else
      let jobs_to_queue := if pending = 0 then max_tasks else max_tasks - pending
      let rec0 : IterRecord := ⟨pending, jobs_to_queue⟩
      let pending1 := pending + jobs_to_queue
      match m with
      | .event .Working =>
        if pending1 = 0 then ([rec0], .underflow)
        else
          let r := run_pending_tasks max_tasks rest (pending1 - 1) (queued + 1)
          (rec0 :: r.1, r.2)
      | .event .NoJobAvailable => ([rec0], .ret (.ok queued))
      | .event (.ErrorLoadingJob e) => ([rec0], .ret (.error (.FailedLoadingJob e)))
      | .event .Dummy => ([rec0], .ret (.ok queued))
      | .closed => ([rec0], .ret (.error .NoMessage))
      | .timeout => ([rec0], .ret (.error .Timeout))

/-- The number of `Working` events in a script. -/
def countWorking (msgs : List Msg) : Nat :=
  msgs.countP (fun m => m == .event .Working)

/-! ## Units of work and the finish protocol -/

/-- The payload carried by a caught panic (`Box<dyn Any + Send>`), as the four
shapes `try_to_extract_panic_info` distinguishes. -/
inductive PanicPayload
  | panicInfo (s : String)
  | strRef (s : String)
  | stringOwned (s : String)
  | other
deriving DecidableEq, Repr

/-- `runner::try_to_extract_panic_info`. -/
def try_to_extract_panic_info : PanicPayload → PerformError
  | .panicInfo s => .msg ("job panicked: " ++ s)
  | .strRef s => .msg ("job panicked: " ++ s)
  | .stringOwned s => .msg ("job panicked: " ++ s)
  | .other => .msg "job panicked"

/-- What one blocking handler invocation can do: return, fail, or panic. -/
inductive HandlerOutcome
  | ok
  | err (e : PerformError)
  | panicked (p : PanicPayload)
deriving DecidableEq, Repr

/-- The source line
`catch_unwind(|| fun(job)).map_err(|e| try_to_extract_panic_info(&e)).and_then(|r| r)`:
a panic is caught and converted, an ordinary result is passed through. -/
def catch_unwind_result : HandlerOutcome → Except PerformError Unit
  | .ok => .ok ()
  | .err e => .error e
  | .panicked p => .error (try_to_extract_panic_info p)

/-- Success or failure of each database operation the finish protocol may
attempt. -/
structure DbOutcome where
  delete_ok : Bool
  update_ok : Bool
  commit_ok : Bool
deriving DecidableEq, Repr

/-- Observable actions of the finish protocol. -/
inductive FinAction
  | delete (id : Int)
  | update (id : Int)
  | commit
  | hook (id : Int)
  | panicAbort
deriving DecidableEq, Repr

/-- Whether the finalization query of `finish_work` succeeds for this handler
result: the delete on `Ok`, the retries update on `Err`. -/
def finOk (res : Except PerformError Unit) (db : DbOutcome) : Bool :=
  match res with
  | .ok _ => db.delete_ok
  | .error _ => db.update_ok

/-- `Runner::finish_work`: on `Ok` delete the row, on `Err` increment
`retries`; a failing finalization query panics the unit; then commit,
panicking on failure; only then invoke the configured finish hook.  The
returned list is the trace of attempted actions in program order. -/
def finish_work (res : Except PerformError Unit) (db : DbOutcome) (job_id : Int)
    (has_hook : Bool) : List FinAction :=
  let first : FinAction :=
    match res with
    | .ok _ => .delete job_id
    | .error _ => .update job_id
  if finOk res db then
    if db.commit_ok then
      first :: .commit :: (if has_hook then [.hook job_id] else [])
    else [first, .commit, .panicAbort]
  else [first, .panicAbort]

/-- How the database behaves when a unit of work tries to obtain its next job:
`begin` fails, a job is found (and locked), the queue is empty, or the fetch
query fails. -/
inductive FetchOutcome
  | beginErr (e : String)
  | found (j : BackgroundJob)
  | empty
  | fetchErr (e : String)
deriving DecidableEq, Repr

/-- Observable actions of one unit of work, in program order. -/
inductive UAction
  | beginTx
  | lockRow (id : Int)
  | emit (e : Event)
  | runHandler (id : Int)
  | fin (a : FinAction)
deriving DecidableEq, Repr

/-- `Runner::get_next_job`: begin a transaction, fetch and row-lock the next
job with `find_next_unlocked_job`, send exactly one event on the channel, and
return the job when one was obtained. -/
def get_next_job (f : FetchOutcome) : List UAction × Option BackgroundJob :=
  match f with
  | .beginErr e => ([.emit (.ErrorLoadingJob e)], none)
  | .found j => ([.beginTx, .lockRow j.id, .emit .Working], some j)
  | .empty => ([.beginTx, .emit .NoJobAvailable], none)
  | .fetchErr e => ([.beginTx, .emit (.ErrorLoadingJob e)], none)

/-- The body of `Runner::get_single_sync_job`: obtain a job, run the handler
inside the `catch_unwind` panic barrier, and run the finish protocol inside
the same transaction. -/
def get_single_sync_job (f : FetchOutcome)
    (handler : BackgroundJob → HandlerOutcome) (db : DbOutcome)
    (has_hook : Bool) : List UAction :=
  match get_next_job f with
  | (tr, none) => tr
  | (tr, some job) =>
    tr ++ .runHandler job.id ::
      (finish_work (catch_unwind_result (handler job)) db job.id has_hook).map UAction.fin

/-- The body of `Runner::get_single_async_job`: obtain a job, await the
handler (no panic barrier in this lane), and run the finish protocol inside
the same transaction. -/
def get_single_async_job (f : FetchOutcome)
    (handler : BackgroundJob → Except PerformError Unit) (db : DbOutcome)
    (has_hook : Bool) : List UAction :=
  match get_next_job f with
  | (tr, none) => tr
  | (tr, some job) =>
    tr ++ .runHandler job.id ::
      (finish_work (handler job) db job.id has_hook).map UAction.fin

/-! ## Theorems -/

/-- C1: after the handler returns, `Runner::finish_work` runs the finish
protocol inside the unit's transaction: on `Ok(())` the first action is
`delete_successful_job` with the job's id, on `Err(_)` it is
`update_failed_job` with the job's id; the commit is attempted exactly when
the finalization query succeeded; any failure of the finalization query or of
the commit aborts the unit with a panic (and then the hook never runs); and a
configured finish hook is invoked with the job id only after the commit. -/
theorem finish_work_protocol (res : Except PerformError Unit) (db : DbOutcome)
    (id : Int) (hk : Bool) :
    ((finish_work res db id hk).head? =
      some (match res with | .ok _ => .delete id | .error _ => .update id)) ∧
    (FinAction.panicAbort ∈ finish_work res db id hk ↔
      ¬(finOk res db = true ∧ db.commit_ok = true)) ∧
    (FinAction.commit ∈ finish_work res db id hk ↔ finOk res db = true) ∧
    (FinAction.hook id ∈ finish_work res db id hk ↔
      (hk = true ∧ finOk res db = true ∧ db.commit_ok = true)) ∧
    (FinAction.hook id ∈ finish_work res db id hk →
      ∃ pre, finish_work res db id hk = pre ++ [FinAction.commit, FinAction.hook id]) := by
  rcases db with ⟨d, u, c⟩
  rcases res with e | u' <;> cases d <;> cases u <;> cases c <;> cases hk <;>
    simp [finish_work, finOk] <;>
    exact ⟨[_], rfl⟩

/-- Witness for C1 at a concrete input: a successful unit with every database
operation succeeding and a hook configured ends with commit-then-hook. -/
theorem finish_work_protocol_witness :
    ∃ pre, finish_work (.ok ()) ⟨true, true, true⟩ 7 true =
      pre ++ [FinAction.commit, FinAction.hook 7] :=
  (finish_work_protocol (.ok ()) ⟨true, true, true⟩ 7 true).2.2.2.2 (by decide)

/-- C6: in the blocking lane a handler panic is caught by the panic barrier,
converted to a `PerformError` whose message carries the panic payload
(extracted as `&str`, `String`, `PanicInfo`, or generically), and the unit then
behaves exactly as if the handler had returned that error: the failure branch
of the finish protocol (`update_failed_job`) runs first. -/
theorem sync_panic_is_handler_error (j : BackgroundJob) (p : PanicPayload)
    (db : DbOutcome) (hk : Bool) (f : BackgroundJob → HandlerOutcome)
    (hf : f j = .panicked p) :
    catch_unwind_result (f j) = .error (try_to_extract_panic_info p) ∧
    get_single_sync_job (.found j) f db hk =
      get_single_sync_job (.found j) (fun _ => .err (try_to_extract_panic_info p)) db hk ∧
    (finish_work (.error (try_to_extract_panic_info p)) db j.id hk).head? =
      some (.update j.id) ∧
    (∀ s, try_to_extract_panic_info (.strRef s) = .msg ("job panicked: " ++ s)) ∧
    (∀ s, try_to_extract_panic_info (.stringOwned s) = .msg ("job panicked: " ++ s)) ∧
    (∀ s, try_to_extract_panic_info (.panicInfo s) = .msg ("job panicked: " ++ s)) ∧
    try_to_extract_panic_info .other = .msg "job panicked" := by
  refine ⟨by rw [hf]; rfl, ?_, ?_, fun s => rfl, fun s => rfl, fun s => rfl, rfl⟩
  · simp [get_single_sync_job, get_next_job, hf, catch_unwind_result]
  · rcases db with ⟨d, u, c⟩
    cases u <;> cases c <;> simp [finish_work, finOk]

/-- Witness for C6 at a concrete input: a handler that panics with the string
payload "boom" leads to the failure branch of the finish protocol. -/
theorem sync_panic_is_handler_error_witness :
    get_single_sync_job (.found ⟨2, "boom", []⟩)
        (fun _ => .panicked (.strRef "boom")) ⟨true, true, true⟩ false =
      get_single_sync_job (.found ⟨2, "boom", []⟩)
        (fun _ => .err (try_to_extract_panic_info (.strRef "boom")))
        ⟨true, true, true⟩ false :=
  (sync_panic_is_handler_error ⟨2, "boom", []⟩ (.strRef "boom") ⟨true, true, true⟩
    false (fun _ => .panicked (.strRef "boom")) rfl).2.1

/-- C9: in both lanes, whenever a unit of work runs a handler, the trace shows
the row lock, then the `Working` event, then the handler invocation, in that
order, and the handler never runs before the event is sent. -/
theorem working_emitted_before_handler (f : FetchOutcome)
    (hs : BackgroundJob → HandlerOutcome)
    (ha : BackgroundJob → Except PerformError Unit)
    (db : DbOutcome) (hk : Bool) (id : Int) :
    (UAction.runHandler id ∈ get_single_sync_job f hs db hk →
      ∃ l i j : Nat, l < i ∧ i < j ∧
        (get_single_sync_job f hs db hk)[l]? = some (UAction.lockRow id) ∧
        (get_single_sync_job f hs db hk)[i]? = some (UAction.emit Event.Working) ∧
        (get_single_sync_job f hs db hk)[j]? = some (UAction.runHandler id) ∧
        ∀ k < i, (get_single_sync_job f hs db hk)[k]? ≠ some (UAction.runHandler id)) ∧
    (UAction.runHandler id ∈ get_single_async_job f ha db hk →
      ∃ l i j : Nat, l < i ∧ i < j ∧
        (get_single_async_job f ha db hk)[l]? = some (UAction.lockRow id) ∧
        (get_single_async_job f ha db hk)[i]? = some (UAction.emit Event.Working) ∧
        (get_single_async_job f ha db hk)[j]? = some (UAction.runHandler id) ∧
        ∀ k < i, (get_single_async_job f ha db hk)[k]? ≠ some (UAction.runHandler id)) := by
  cases f with
  | found j0 =>
    constructor
    · intro hmem
      have hid : id = j0.id := by
        simp [get_single_sync_job, get_next_job] at hmem
        exact hmem
      subst hid
      refine ⟨1, 2, 3, by omega, by omega, ?_, ?_, ?_, ?_⟩ <;>
        simp [get_single_sync_job, get_next_job]
      intro k hk2
      interval_cases k <;> simp
    · intro hmem
      have hid : id = j0.id := by
        simp [get_single_async_job, get_next_job] at hmem
        exact hmem
      subst hid
      refine ⟨1, 2, 3, by omega, by omega, ?_, ?_, ?_, ?_⟩ <;>
        simp [get_single_async_job, get_next_job]
      intro k hk2
      interval_cases k <;> simp
  | beginErr e =>
    constructor <;> intro hmem <;>
      simp [get_single_sync_job, get_single_async_job, get_next_job] at hmem
  | empty =>
    constructor <;> intro hmem <;>
      simp [get_single_sync_job, get_single_async_job, get_next_job] at hmem
  | fetchErr e =>
    constructor <;> intro hmem <;>
      simp [get_single_sync_job, get_single_async_job, get_next_job] at hmem

/-- Witness for C9 at a concrete input: for a found job with id 5 the sync
unit's trace orders lock, `Working`, handler. -/
theorem working_emitted_before_handler_witness :
    ∃ l i j : Nat, l < i ∧ i < j ∧
      (get_single_sync_job (.found ⟨5, "t", []⟩) (fun _ => .ok)
        ⟨true, true, true⟩ false)[l]? = some (UAction.lockRow 5) ∧
      (get_single_sync_job (.found ⟨5, "t", []⟩) (fun _ => .ok)
        ⟨true, true, true⟩ false)[i]? = some (UAction.emit Event.Working) ∧
      (get_single_sync_job (.found ⟨5, "t", []⟩) (fun _ => .ok)
        ⟨true, true, true⟩ false)[j]? = some (UAction.runHandler 5) ∧
      ∀ k < i, (get_single_sync_job (.found ⟨5, "t", []⟩) (fun _ => .ok)
        ⟨true, true, true⟩ false)[k]? ≠ some (UAction.runHandler 5) :=
  (working_emitted_before_handler (.found ⟨5, "t", []⟩) (fun _ => .ok)
    (fun _ => .ok ()) ⟨true, true, true⟩ false 5).1 (by decide)

/-- The `jobs_to_queue` computation of the source equals `max_tasks - pending`
in both of its branches. -/
theorem jobs_to_queue_eq (max_tasks pending : Nat) :
    (if pending = 0 then max_tasks else max_tasks - pending) = max_tasks - pending := by
  by_cases h : pending = 0 <;> simp [h]

/-- One-step unfolding of `run_pending_tasks` when `pending_messages` is in
bounds: the iteration launches `max_tasks - pending` units (so the refilled
count is `max_tasks`) and then handles one message. -/
theorem run_pending_tasks_cons (max_tasks : Nat) (m : Msg) (rest : List Msg)
    (pending queued : Nat) (hp : pending ≤ max_tasks) :
    run_pending_tasks max_tasks (m :: rest) pending queued =
      match m with
      | .event .Working =>
        if max_tasks = 0 then ([⟨pending, max_tasks - pending⟩], .underflow)
        else
          (⟨pending, max_tasks - pending⟩ ::
              (run_pending_tasks max_tasks rest (max_tasks - 1) (queued + 1)).1,
            (run_pending_tasks max_tasks rest (max_tasks - 1) (queued + 1)).2)
      | .event .NoJobAvailable =>
        ([⟨pending, max_tasks - pending⟩], .ret (.ok queued))
      | .event (.ErrorLoadingJob e) =>
        ([⟨pending, max_tasks - pending⟩], .ret (.error (.FailedLoadingJob e)))
      | .event .Dummy => ([⟨pending, max_tasks - pending⟩], .ret (.ok queued))
      | .closed => ([⟨pending, max_tasks - pending⟩], .ret (.error .NoMessage))
      | .timeout => ([⟨pending, max_tasks - pending⟩], .ret (.error .Timeout)) := by
  have hfill : pending + (max_tasks - pending) = max_tasks := Nat.add_sub_cancel' hp
  rcases m with e | _ | _
  · cases e <;>
      simp only [run_pending_tasks, if_neg (Nat.not_lt.mpr hp), jobs_to_queue_eq, hfill]
  · simp only [run_pending_tasks, if_neg (Nat.not_lt.mpr hp), jobs_to_queue_eq, hfill]
  · simp only [run_pending_tasks, if_neg (Nat.not_lt.mpr hp), jobs_to_queue_eq, hfill]

/-- Invariant of the outer loop: starting in bounds, every iteration sees
`pending_messages ≤ max_tasks` and launches exactly the difference; and the
guarded `usize` subtractions cannot underflow as long as `max_tasks ≥ 1` or no
event at all is delivered (with `max_tasks = 0` no unit is ever launched and
each event comes from a launched unit, so no event can arrive). -/
theorem run_pending_tasks_inv (max_tasks : Nat) :
    ∀ (msgs : List Msg) (pending queued : Nat), pending ≤ max_tasks →
      (∀ r ∈ (run_pending_tasks max_tasks msgs pending queued).1,
        r.pending_at_top ≤ max_tasks ∧ r.launched = max_tasks - r.pending_at_top) ∧
      ((1 ≤ max_tasks ∨ countWorking msgs = 0) →
        (run_pending_tasks max_tasks msgs pending queued).2 ≠ .underflow) := by
  intro msgs
  induction msgs with
  | nil =>
    intro pending queued hp
    exact ⟨by simp [run_pending_tasks], by intro _; simp [run_pending_tasks]⟩
  | cons m rest ih =>
    intro pending queued hp
    rw [run_pending_tasks_cons max_tasks m rest pending queued hp]
    rcases m with e | _ | _
    · cases e with
      | Working =>
        by_cases hmt : max_tasks = 0
        · rw [if_pos hmt]
          refine ⟨?_, ?_⟩
          · intro r hr
            simp at hr
            subst hr
            exact ⟨hp, rfl⟩
          · intro h
            rcases h with h1 | h0
            · omega
            · simp [countWorking, List.countP_cons] at h0
        · rw [if_neg hmt]
          obtain ⟨ihr, ihu⟩ := ih (max_tasks - 1) (queued + 1) (Nat.sub_le _ _)
          refine ⟨?_, ?_⟩
          · intro r hr
            rcases List.mem_cons.mp hr with h | h
            · subst h; exact ⟨hp, rfl⟩
            · exact ihr r h
          · intro _
            exact ihu (Or.inl (Nat.one_le_iff_ne_zero.mpr hmt))
      | NoJobAvailable => exact ⟨by intro r hr; simp at hr; subst hr; exact ⟨hp, rfl⟩, by simp⟩
      | ErrorLoadingJob e => exact ⟨by intro r hr; simp at hr; subst hr; exact ⟨hp, rfl⟩, by simp⟩
      | Dummy => exact ⟨by intro r hr; simp at hr; subst hr; exact ⟨hp, rfl⟩, by simp⟩
    · exact ⟨by intro r hr; simp at hr; subst hr; exact ⟨hp, rfl⟩, by simp⟩
    · exact ⟨by intro r hr; simp at hr; subst hr; exact ⟨hp, rfl⟩, by simp⟩

/-- The `Ok` value returned by the loop is the initial `queued` plus exactly
the number of `Working` events it consumed. -/
theorem run_ok_queued_counts (max_tasks : Nat) :
    ∀ (msgs : List Msg) (pending queued n : Nat),
      (run_pending_tasks max_tasks msgs pending queued).2 = .ret (.ok n) →
      n = queued + countWorking
        (msgs.take (run_pending_tasks max_tasks msgs pending queued).1.length) := by
  intro msgs
  induction msgs with
  | nil =>
    intro pending queued n h
    simp [run_pending_tasks] at h
  | cons m rest ih =>
    intro pending queued n h
    by_cases hp : pending ≤ max_tasks
    · rw [run_pending_tasks_cons max_tasks m rest pending queued hp] at h ⊢
      rcases m with e | _ | _
      · cases e with
        | Working =>
          by_cases hmt : max_tasks = 0
          · rw [if_pos hmt] at h
            simp at h
          · rw [if_neg hmt] at h ⊢
            have hn := ih (max_tasks - 1) (queued + 1) n h
            simp [countWorking] at hn ⊢
            omega
        | NoJobAvailable =>
          simp only [countWorking, List.length_cons, List.length_nil,
            List.take_succ_cons, List.take_nil, List.countP_cons, List.countP_nil] at h ⊢
          simp at h
          simp [h]
        | ErrorLoadingJob e => simp at h
        | Dummy =>
          simp only [countWorking, List.length_cons, List.length_nil,
            List.take_succ_cons, List.take_nil, List.countP_cons, List.countP_nil] at h ⊢
          simp at h
          simp [h]
      · simp at h
      · simp at h
    · simp [run_pending_tasks, if_pos (Nat.not_le.mp hp)] at h

/-- C2: the outer loop handles each observed event as specified: `Working`
decrements the (refilled) pending count, increments `queued` and continues;
`NoJobAvailable` returns `Ok(queued)`; `ErrorLoadingJob(e)` returns
`Err(FetchError::FailedLoadingJob(e))`; a closed channel returns
`Err(FetchError::NoMessage)`; elapse of the fetch timeout returns
`Err(FetchError::Timeout)`; and the `Ok` value is the number of jobs handed
off to workers during the call (the `Working` events received), not the number
completed. -/
theorem run_pending_tasks_events (max_tasks : Nat) (rest : List Msg)
    (pending queued : Nat) (e : String)
    (hp : pending ≤ max_tasks) (hm : 1 ≤ max_tasks) :
    ((run_pending_tasks max_tasks (.event .Working :: rest) pending queued).2 =
      (run_pending_tasks max_tasks rest (max_tasks - 1) (queued + 1)).2) ∧
    ((run_pending_tasks max_tasks (.event .NoJobAvailable :: rest) pending queued).2 =
      .ret (.ok queued)) ∧
    ((run_pending_tasks max_tasks (.event (.ErrorLoadingJob e) :: rest) pending queued).2 =
      .ret (.error (.FailedLoadingJob e))) ∧
    ((run_pending_tasks max_tasks (.closed :: rest) pending queued).2 =
      .ret (.error .NoMessage)) ∧
    ((run_pending_tasks max_tasks (.timeout :: rest) pending queued).2 =
      .ret (.error .Timeout)) ∧
    (∀ (msgs : List Msg) (n : Nat),
      (run_pending_tasks max_tasks msgs 0 0).2 = .ret (.ok n) →
      n = countWorking (msgs.take (run_pending_tasks max_tasks msgs 0 0).1.length)) := by
  refine ⟨?_, ?_, ?_, ?_, ?_, ?_⟩
  · rw [run_pending_tasks_cons _ _ _ _ _ hp, if_neg (by omega)]
  · rw [run_pending_tasks_cons _ _ _ _ _ hp]
  · rw [run_pending_tasks_cons _ _ _ _ _ hp]
  · rw [run_pending_tasks_cons _ _ _ _ _ hp]
  · rw [run_pending_tasks_cons _ _ _ _ _ hp]
  · intro msgs n h
    simpa using run_ok_queued_counts max_tasks msgs 0 0 n h

/-- Witness for C2 at a concrete input: with `max_tasks = 2`, one `Working`
then `NoJobAvailable` yields `Ok(1)`, and the count matches the single
`Working` event. -/
theorem run_pending_tasks_events_witness :
    (run_pending_tasks 2 [.event .NoJobAvailable] 1 0).2 =
      .ret (.ok 0) :=
  (run_pending_tasks_events 2 [] 1 0 "x" (by decide) (by decide)).2.1

/-- C5: during a single `run_all_*` call, at the top of every iteration the
in-flight (launched, unreported) count is at most `max_tasks`, each iteration
launches exactly `max_tasks - pending` new units and increments `pending` by
that count, and so after launching at most `max_tasks` units are in flight. -/
theorem concurrency_cap (max_tasks : Nat) (msgs : List Msg) :
    ∀ r ∈ (run_pending_tasks max_tasks msgs 0 0).1,
      r.pending_at_top ≤ max_tasks ∧
      r.launched = max_tasks - r.pending_at_top ∧
      r.pending_at_top + r.launched ≤ max_tasks := by
  intro r hr
  obtain ⟨h1, h2⟩ := (run_pending_tasks_inv max_tasks msgs 0 0 (Nat.zero_le _)).1 r hr
  exact ⟨h1, h2, by omega⟩

/-- Witness for C5 at a concrete input: the first iteration of a run with
`max_tasks = 2` launches two units from a pending count of zero. -/
theorem concurrency_cap_witness :
    (⟨0, 2⟩ : IterRecord).pending_at_top ≤ 2 ∧
      (⟨0, 2⟩ : IterRecord).launched = 2 - (⟨0, 2⟩ : IterRecord).pending_at_top ∧
      (⟨0, 2⟩ : IterRecord).pending_at_top + (⟨0, 2⟩ : IterRecord).launched ≤ 2 :=
  concurrency_cap 2 [.event .Working, .event .NoJobAvailable] ⟨0, 2⟩ (by decide)

/-- C10: throughout `run_pending_tasks`, `pending_messages` stays between 0
and `max_tasks` at the top of every iteration (it is a `Nat` in the model and
a `usize` in the source, so the lower bound is implicit), and neither `usize`
subtraction of the loop underflows.  The hypothesis reflects the channel
discipline — each invocation of `get_next_job` sends exactly one event, so
with `max_tasks = 0` no unit is ever launched and no event can arrive. -/
theorem run_pending_tasks_no_underflow (max_tasks : Nat) (msgs : List Msg)
    (h : 1 ≤ max_tasks ∨ countWorking msgs = 0) :
    (∀ r ∈ (run_pending_tasks max_tasks msgs 0 0).1, r.pending_at_top ≤ max_tasks) ∧
    (run_pending_tasks max_tasks msgs 0 0).2 ≠ .underflow := by
  obtain ⟨h1, h2⟩ := run_pending_tasks_inv max_tasks msgs 0 0 (Nat.zero_le _)
  exact ⟨fun r hr => (h1 r hr).1, h2 h⟩

/-- Witness for C10 at a concrete input: `max_tasks = 1` with a single
`Working` event neither underflows nor exceeds the bound. -/
theorem run_pending_tasks_no_underflow_witness :
    (∀ r ∈ (run_pending_tasks 1 [.event .Working] 0 0).1, r.pending_at_top ≤ 1) ∧
    (run_pending_tasks 1 [.event .Working] 0 0).2 ≠ .underflow :=
  run_pending_tasks_no_underflow 1 [.event .Working] (Or.inl (by decide))

/-- C4: the dispatcher bridges descriptor mode and requested mode as the spec
table states: `perform_sync` on a sync descriptor is a direct call;
`perform_sync` on an async descriptor makes the outer call and then blocks the
current thread until the returned deferred resolves (yielding its resolved
value); `perform_async` on a sync descriptor is a direct synchronous call
whose result is returned as an immediately-ready value (zero suspension
steps); `perform_async` on an async descriptor makes the outer call and then
awaits the returned deferred. -/
theorem perform_job_bridges (et : Nat) (jt : String)
    (fs : List Nat → DynAny → Pool → Except PerformError Unit)
    (fa : List Nat → DynAny → Pool →
      Except PerformError (Fut (Except PerformError Unit)))
    (data : List Nat) (env : DynAny) (pool : Pool) :
    (PerformJob.perform_sync ⟨⟨et, jt, .Sync fs⟩⟩ data env pool = fs data env pool) ∧
    (∀ fut, fa data env pool = .ok fut →
      PerformJob.perform_sync ⟨⟨et, jt, .Async fa⟩⟩ data env pool = block_on fut ∧
      block_on fut = fut.val) ∧
    (∀ e, fa data env pool = .error e →
      PerformJob.perform_sync ⟨⟨et, jt, .Async fa⟩⟩ data env pool = .error e) ∧
    (PerformJob.perform_async ⟨⟨et, jt, .Sync fs⟩⟩ data env pool =
        Fut.ready (fs data env pool) ∧
      (PerformJob.perform_async ⟨⟨et, jt, .Sync fs⟩⟩ data env pool).steps = 0) ∧
    (∀ fut, fa data env pool = .ok fut →
      PerformJob.perform_async ⟨⟨et, jt, .Async fa⟩⟩ data env pool = fut) ∧
    (∀ e, fa data env pool = .error e →
      PerformJob.perform_async ⟨⟨et, jt, .Async fa⟩⟩ data env pool =
        Fut.ready (.error e)) := by
  refine ⟨rfl, ?_, ?_, ⟨rfl, rfl⟩, ?_, ?_⟩ <;> intro x hx <;>
    simp [PerformJob.perform_sync, PerformJob.perform_async, hx, block_on]

/-- Witness for C4 at a concrete input: an async descriptor whose outer call
returns a deferred resolving after three steps is, in the blocking lane, run
with `block_on` and yields the resolved value. -/
theorem perform_job_bridges_witness :
    PerformJob.perform_sync ⟨⟨0, "t", .Async (fun _ _ _ => .ok ⟨3, .ok ()⟩)⟩⟩
        [] ⟨0, 0⟩ () = block_on ⟨3, .ok ()⟩ ∧
      block_on (⟨3, .ok ()⟩ : Fut (Except PerformError Unit)) = .ok () :=
  (perform_job_bridges 0 "t" (fun _ _ _ => .ok ())
    (fun _ _ _ => .ok ⟨3, .ok ()⟩) [] ⟨0, 0⟩ ()).2.1 ⟨3, .ok ()⟩ rfl

/-- C7: each of the three handler-side failure modes is reported as a
`PerformError`, in both lanes: an environment-type mismatch at downcast, a
payload decode failure, and a `job_type` lookup with no registered
descriptor. -/
theorem handler_failures_are_perform_errors (T : JobDef) (data : List Nat)
    (env : DynAny) (pool : Pool) (reg : Registry) (job : BackgroundJob) :
    (env.type_id ≠ T.env_type →
      perform_sync_job T data env pool = .error (.msg incorrect_env_msg)) ∧
    (env.type_id ≠ T.env_type →
      perform_async_job T data env pool = .error (.msg incorrect_env_msg)) ∧
    (∀ e, env.type_id = T.env_type → T.decode data = .error e →
      perform_sync_job T data env pool = .error (.msg e)) ∧
    (∀ e, env.type_id = T.env_type → T.decode data = .error e →
      perform_async_job T data env pool = .error (.msg e)) ∧
    (reg.get job.job_type = none →
      run_single_sync_perform reg job env pool =
        .error (.msg ("Unknown job type " ++ job.job_type))) ∧
    (reg.get job.job_type = none →
      run_single_async_perform reg job env pool =
        Fut.ready (.error (.msg ("Unknown job type " ++ job.job_type)))) := by
  refine ⟨?_, ?_, ?_, ?_, ?_, ?_⟩
  · intro h
    simp [perform_sync_job, downcast_ref, h]
  · intro h
    simp [perform_async_job, downcast_ref, h]
  · intro e h1 h2
    simp [perform_sync_job, downcast_ref, h1, h2]
  · intro e h1 h2
    simp [perform_async_job, downcast_ref, h1, h2]
  · intro h
    simp [run_single_sync_perform, h]
  · intro h
    simp [run_single_async_perform, h]

/-- Witness for C7 at a concrete input: an environment tagged 2 offered to a
handler expecting tag 1 yields the environment-mismatch `PerformError`. -/
theorem handler_failures_are_perform_errors_witness :
    perform_sync_job ⟨1, "t", false, fun _ => .error "bad", fun _ _ _ => .ok ()⟩
        [] ⟨2, 0⟩ () = .error (.msg incorrect_env_msg) :=
  (handler_failures_are_perform_errors
    ⟨1, "t", false, fun _ => .error "bad", fun _ _ _ => .ok ()⟩ [] ⟨2, 0⟩ ()
    ⟨0, []⟩ ⟨1, "x", []⟩).1 (by decide)

/-- Specification-side selector: the last descriptor, in submission order,
satisfying a predicate.  With the predicate "matches this environment tag and
this job-type key" it expresses the spec's "duplicate `job_type` keys are
last-wins at load". -/
def lastWith (p : JobVTable → Bool) : List JobVTable → Option JobVTable
  | [] => none
  | v :: vs =>
    match lastWith p vs with
    | some w => some w
    | none => if p v then some v else none

/-- Looking a key up after a `HashMap::insert`: the inserted binding shadows
the old map exactly at its key. -/
theorem lookup_hmInsert (m : List (String × JobVTable)) (k kk : String)
    (v : JobVTable) :
    (hmInsert m kk v).lookup k = if k = kk then some v else m.lookup k := by
  by_cases h : k = kk
  · subst h
    simp [hmInsert, List.lookup]
  · rw [if_neg h]
    have hb : (k == kk) = false := beq_eq_false_iff_ne.mpr h
    simp only [hmInsert, List.lookup, hb]
    induction m with
    | nil => rfl
    | cons p rest ih =>
      rcases p with ⟨pk, pv⟩
      by_cases hp : pk = kk
      · subst hp
        have : (k == pk) = false := hb
        simp [List.filter_cons, List.lookup, this, ih]
      · have hpk : (!(pk == kk)) = true := by
          simp [beq_eq_false_iff_ne.mpr hp]
        by_cases hk : k = pk
        · subst hk
          simp [List.filter_cons, hpk, List.lookup]
        · simp [List.filter_cons, hpk, List.lookup, beq_eq_false_iff_ne.mpr hk, ih]

/-- Folding `HashMap::insert` over a descriptor list: a key resolves to the
last descriptor with that `job_type`, falling back to the initial map. -/
theorem lookup_foldl_hmInsert (k : String) :
    ∀ (l : List JobVTable) (m : List (String × JobVTable)),
      (l.foldl (fun acc v => hmInsert acc v.job_type v) m).lookup k =
        match lastWith (fun v => v.job_type == k) l with
        | some w => some w
        | none => m.lookup k := by
  intro l
  induction l with
  | nil => intro m; rfl
  | cons v vs ih =>
    intro m
    rw [List.foldl_cons, ih (hmInsert m v.job_type v)]
    cases h : lastWith (fun v => v.job_type == k) vs with
    | some w => simp [lastWith, h]
    | none =>
      simp only [lastWith, h, lookup_hmInsert]
      by_cases hk : v.job_type = k
      · simp [hk]
      · have h1 : ¬k = v.job_type := fun hq => hk hq.symm
        simp [hk, h1, beq_eq_false_iff_ne.mpr hk]

/-- `lastWith` over a filtered list is `lastWith` of the conjunction. -/
theorem lastWith_filter (p q : JobVTable → Bool) :
    ∀ l : List JobVTable, lastWith q (l.filter p) = lastWith (fun v => p v && q v) l := by
  intro l
  induction l with
  | nil => rfl
  | cons v vs ih =>
    by_cases hp : p v
    · simp only [List.filter_cons, hp, if_pos, lastWith, ih]
      cases lastWith (fun v => p v && q v) vs <;> simp [hp]
    · have hp' : p v = false := by simp [hp]
      have hf : List.filter p (v :: vs) = List.filter p vs := by
        simp [List.filter_cons, hp']
      rw [hf, ih]
      cases h2 : lastWith (fun v => p v && q v) vs <;>
        simp [lastWith, h2, hp']

/-- Entries of the map built by the `Registry::load` fold keep the shape of
their descriptor: key equal to its `job_type`, environment tag matching. -/
theorem mem_foldl_hmInsert (envTag : Nat) :
    ∀ (l : List JobVTable) (m : List (String × JobVTable)),
      (∀ v ∈ l, v.env_type = envTag) →
      (∀ kv ∈ m, kv.2.env_type = envTag ∧ kv.1 = kv.2.job_type) →
      ∀ kv ∈ l.foldl (fun acc v => hmInsert acc v.job_type v) m,
        kv.2.env_type = envTag ∧ kv.1 = kv.2.job_type := by
  intro l
  induction l with
  | nil => intro m _ hm; simpa using hm
  | cons v vs ih =>
    intro m hl hm
    rw [List.foldl_cons]
    refine ih (hmInsert m v.job_type v) (fun w hw => hl w (List.mem_cons_of_mem _ hw)) ?_
    intro kv hkv
    rcases List.mem_cons.mp hkv with h | h
    · subst h
      exact ⟨hl v (List.mem_cons_self _ _), rfl⟩
    · exact hm kv (List.mem_of_mem_filter h)

/-- C8: `Registry::load` for an environment tag collects exactly the globally
pre-registered descriptors whose `env_type` equals that tag — descriptors of
other environment types are excluded — and when several collected descriptors
share a `job_type` key the last one in submission order wins:  lookup in the
loaded registry equals the last matching descriptor of the inventory. -/
theorem registry_load_env_filter_last_wins (envTag : Nat) (inv : List JobVTable)
    (k : String) :
    (Registry.load envTag inv).get k =
      (lastWith (fun v => v.env_type == envTag && v.job_type == k) inv).map
        (fun v => (⟨v⟩ : PerformJob)) ∧
    ∀ kv ∈ (Registry.load envTag inv).jobs,
      kv.2.env_type = envTag ∧ kv.1 = kv.2.job_type := by
  constructor
  · show ((Registry.load envTag inv).jobs.lookup k).map _ =
      (lastWith (fun v => v.env_type == envTag && v.job_type == k) inv).map _
    have h1 := lookup_foldl_hmInsert k (inv.filter (fun v => v.env_type == envTag)) []
    have h2 := lastWith_filter (fun v => v.env_type == envTag)
      (fun v => v.job_type == k) inv
    simp only [Registry.load] at *
    rw [h1, h2]
    cases lastWith (fun v => v.env_type == envTag && v.job_type == k) inv <;> rfl
  · intro kv hkv
    refine mem_foldl_hmInsert envTag (inv.filter (fun v => v.env_type == envTag)) []
      (fun v hv => ?_) (by simp) kv hkv
    have := List.of_mem_filter hv
    exact beq_iff_eq.mp this

/-- Witness for C8 at a concrete input: a single registered descriptor for
environment tag 0 appears in the loaded registry with its own key and tag. -/
theorem registry_load_env_filter_last_wins_witness :
    ("a", (⟨0, "a", .Sync (fun _ _ _ => .ok ())⟩ : JobVTable)).2.env_type = 0 ∧
    ("a", (⟨0, "a", .Sync (fun _ _ _ => .ok ())⟩ : JobVTable)).1 =
      ("a", (⟨0, "a", .Sync (fun _ _ _ => .ok ())⟩ : JobVTable)).2.job_type :=
  (registry_load_env_filter_last_wins 0
      [⟨0, "a", .Sync (fun _ _ _ => .ok ())⟩] "a").2
    ("a", ⟨0, "a", .Sync (fun _ _ _ => .ok ())⟩)
    (by simp [Registry.load, hmInsert])

/-- `minById` of a nonempty list is never `none`. -/
theorem minById_cons_ne_none (r : JobRow) (rs : List JobRow) :
    minById (r :: rs) ≠ none := by
  simp only [minById]
  cases minById rs with
  | none => simp
  | some m =>
    intro hcontra
    split at hcontra
    · simp at hcontra
    · split at hcontra <;> simp at hcontra

/-- `minById` returns `none` exactly on the empty list. -/
theorem minById_eq_none {l : List JobRow} : minById l = none ↔ l = [] := by
  cases l with
  | nil => simp [minById]
  | cons r rs => simp [minById_cons_ne_none r rs]

/-- The row `minById` selects is a member of the list. -/
theorem minById_mem : ∀ {l : List JobRow} {j : JobRow}, minById l = some j → j ∈ l := by
  intro l
  induction l with
  | nil => intro j h; simp [minById] at h
  | cons r rs ih =>
    intro j h
    simp only [minById] at h
    cases hrs : minById rs with
    | none =>
      rw [hrs] at h
      simp at h
      simp [h]
    | some m =>
      rw [hrs] at h
      by_cases hle : r.id ≤ m.id
      · simp [hle] at h
        simp [h]
      · simp [hle] at h
        exact List.mem_cons_of_mem _ (h ▸ ih hrs)

/-- The row `minById` selects has the least `id` of the list. -/
theorem minById_le : ∀ {l : List JobRow} {j : JobRow}, minById l = some j →
    ∀ r ∈ l, j.id ≤ r.id := by
  intro l
  induction l with
  | nil => intro j h; simp [minById] at h
  | cons r rs ih =>
    intro j h s hs
    simp only [minById] at h
    cases hrs : minById rs with
    | none =>
      rw [hrs] at h
      simp at h
      subst h
      rcases List.mem_cons.mp hs with h | h
      · rw [h]
      · simp [minById_eq_none.mp hrs] at h
    | some m =>
      rw [hrs] at h
      rcases List.mem_cons.mp hs with h1 | h1
      · subst h1
        by_cases hle : s.id ≤ m.id
        · simp [hle] at h
          have hj : j.id = s.id := by rw [h]
          omega
        · simp [hle] at h
          have hj : j.id = m.id := by rw [h]
          omega
      · have hm := ih hrs s h1
        by_cases hle : r.id ≤ m.id
        · simp [hle] at h
          have hj : j.id = r.id := by rw [h]
          omega
        · simp [hle] at h
          have hj : j.id = m.id := by rw [h]
          omega

/-- C3: `find_next_unlocked_job`, given the table and an `is_async` filter,
returns `none` exactly when no row matches the filter and is unlocked;
otherwise it returns a row of the table that matches the filter, is not
currently locked, and has the least `id` among all such rows (ascending-`id`
selection order), and in the resulting table that row is now locked while the
update touches only rows with its `id` (skip-locked row locking). -/
theorem find_next_unlocked_job_spec (table : List JobRow) (b : Bool) :
    ((find_next_unlocked_job table b).1 = none ↔
      ∀ r ∈ table, ¬(r.is_async = b ∧ r.locked = false)) ∧
    (∀ j, (find_next_unlocked_job table b).1 = some j →
      j ∈ table ∧ j.is_async = b ∧ j.locked = false ∧
      (∀ r ∈ table, r.is_async = b → r.locked = false → j.id ≤ r.id) ∧
      (find_next_unlocked_job table b).2 =
        table.map (fun r => if r.id = j.id then { r with locked := true } else r) ∧
      { j with locked := true } ∈ (find_next_unlocked_job table b).2) := by
  cases hmin : minById (table.filter (fun r => r.is_async == b && !r.locked)) with
  | none =>
    have hnil := minById_eq_none.mp hmin
    constructor
    · simp only [find_next_unlocked_job, hmin]
      constructor
      · intro _ r hr hcond
        have : r ∈ table.filter (fun r => r.is_async == b && !r.locked) := by
          apply List.mem_filter.mpr
          exact ⟨hr, by simp [hcond.1, hcond.2]⟩
        rw [hnil] at this
        simp at this
      · intro _
        trivial
    · intro j hj
      simp only [find_next_unlocked_job, hmin] at hj
      simp at hj
  | some j0 =>
    have hj0f := minById_mem hmin
    have hj0 := List.mem_filter.mp hj0f
    have hcond : j0.is_async = b ∧ j0.locked = false := by
      have := hj0.2
      simp at this
      exact this
    constructor
    · simp only [find_next_unlocked_job, hmin]
      constructor
      · intro h
        simp at h
      · intro hall
        exact absurd ⟨hcond.1, hcond.2⟩ (hall j0 hj0.1)
    · intro j hj
      simp only [find_next_unlocked_job, hmin] at hj ⊢
      simp at hj
      subst hj
      refine ⟨hj0.1, hcond.1, hcond.2, ?_, rfl, ?_⟩
      · intro r hr hasync hlock
        refine minById_le hmin r ?_
        exact List.mem_filter.mpr ⟨hr, by simp [hasync, hlock]⟩
      · have := List.mem_map_of_mem
          (fun r => if r.id = j0.id then { r with locked := true } else r) hj0.1
        simpa using this

/-- Witness for C3 at a concrete input: with two unlocked async rows the one
with the smaller id is selected, matches the filter, and ends up locked. -/
theorem find_next_unlocked_job_spec_witness :
    (⟨3, "a", [], true, 0, false⟩ : JobRow) ∈
        [(⟨4, "b", [], true, 0, false⟩ : JobRow), ⟨3, "a", [], true, 0, false⟩] ∧
      (⟨3, "a", [], true, 0, false⟩ : JobRow).is_async = true ∧
      (⟨3, "a", [], true, 0, false⟩ : JobRow).locked = false ∧
      (∀ r ∈ [(⟨4, "b", [], true, 0, false⟩ : JobRow), ⟨3, "a", [], true, 0, false⟩],
        r.is_async = true → r.locked = false →
          (⟨3, "a", [], true, 0, false⟩ : JobRow).id ≤ r.id) ∧
      (find_next_unlocked_job
          [⟨4, "b", [], true, 0, false⟩, ⟨3, "a", [], true, 0, false⟩] true).2 =
        [(⟨4, "b", [], true, 0, false⟩ : JobRow),
          ⟨3, "a", [], true, 0, false⟩].map
          (fun r => if r.id = (⟨3, "a", [], true, 0, false⟩ : JobRow).id then
            { r with locked := true } else r) ∧
      ({ (⟨3, "a", [], true, 0, false⟩ : JobRow) with locked := true }) ∈
        (find_next_unlocked_job
          [⟨4, "b", [], true, 0, false⟩, ⟨3, "a", [], true, 0, false⟩] true).2 :=
  (find_next_unlocked_job_spec
      [⟨4, "b", [], true, 0, false⟩, ⟨3, "a", [], true, 0, false⟩] true).2
    ⟨3, "a", [], true, 0, false⟩ (by decide)

end Coil
